import Mathlib

/-!
Verification of the pagination engine of `basecamp-cli`
(`src/basecamp_cli/pagination.py`, function `handle_pagination`).

The function is embedded as a fuel-indexed pure state machine.  Side effects
(stderr progress messages, the interactive prompt, stdout displays of
formatted items, and every invocation of the page fetcher) are recorded in an
explicit event trace, and the fetcher is `Except`-valued so that a transport
error can propagate.  A final result is either `ok items cursor trace`
(normal return of `all_items`), `fail e trace` (an uncaught fetcher error),
or `fuelOut` (the fuel bound was hit, i.e. the Python loop would still be
running).
-/

namespace Basecamp

/-- One observable side effect of `handle_pagination`:
`loadingMsg n` is `click.echo("Loading more items... (n so far)", err=True)`;
`showingMsg n` is `click.echo("\nShowing n item(s). More pages available.", err=True)`;
`promptShown` is the `click.prompt(...)` call;
`invalidMsg` is the invalid-choice message;
`fetchCalled url` is an invocation `fetch_next_page(url)`;
`display xs` is `click.echo(format_func(xs))`, recording the exact list
passed to `format_func`. -/
inductive Event (α : Type) where
  | loadingMsg (count : Nat)
  | showingMsg (count : Nat)
  | promptShown
  | invalidMsg
  | fetchCalled (url : String)
  | display (items : List α)
  deriving DecidableEq, Repr

/-- The page fetcher `fetch_next_page`: given a next-page URL it either
returns `(items, next_url)` or raises a transport error `e`. -/
abbrev Fetcher (ε α : Type) := String → Except ε (List α × Option String)

/-- Result of a run: `ok` carries the returned `all_items`, the final value of
`current_next_url` and the event trace; `fail` carries the propagated fetcher
error and the trace of effects that happened before the raise (no items are
returned); `fuelOut` means the fuel bound was exhausted. -/
inductive LoopResult (ε α : Type) where
  | ok (items : List α) (cursor : Option String) (trace : List (Event α))
  | fail (e : ε) (trace : List (Event α))
  | fuelOut
  deriving DecidableEq, Repr

/-- Python `str.strip()` on the character list of a string: drop whitespace
from both ends. -/
def pyStrip (l : List Char) : List Char :=
  ((l.dropWhile Char.isWhitespace).reverse.dropWhile Char.isWhitespace).reverse

/-- `choice = input_line.strip().lower()` (line 59 of `pagination.py`). -/
def normalize (s : String) : String := String.mk ((pyStrip s.data).map Char.toLower)

/-- Python truthiness of `current_next_url`: `while current_next_url` /
`if not current_next_url` treat both `None` and the empty string as absent. -/
def cursorPresent : Option String → Bool
  | none => false
  | some s => !s.data.isEmpty

/-- The `while current_next_url:` fetch-everything loop (lines 34-37, also the
inner loop of the interactive `'a'` choice, lines 65-68): echo a progress
message to stderr, call the fetcher, extend `all_items`, repeat until the
cursor is absent.  `fuel` bounds the number of iterations. -/
def fetchAllLoop (fetch : Fetcher ε α) :
    Nat → List α → Option String → List (Event α) → LoopResult ε α
  | _, items, none, tr => .ok items none tr
  | 0, items, some url, tr =>
      if url.data.isEmpty then .ok items (some url) tr else .fuelOut
  | fuel + 1, items, some url, tr =>
      if url.data.isEmpty then .ok items (some url) tr
      else
        match fetch url with
        | .error e =>
            .fail e (tr ++ [Event.loadingMsg items.length, Event.fetchCalled url])
        | .ok (nextItems, nextUrl) =>
            fetchAllLoop fetch fuel (items ++ nextItems) nextUrl
              (tr ++ [Event.loadingMsg items.length, Event.fetchCalled url])

/-- The interactive prompt loop (lines 53-79): while the cursor is present,
echo the "Showing ... More pages available." message, prompt for one line of
input (line `pos` of the input stream), normalize it, and dispatch:
`"q"` breaks; `"a"` runs the fetch-everything loop then displays the full
accumulated list and breaks; `""` fetches one page, appends it and displays
just the newly fetched items; anything else echoes the invalid-choice message
and re-enters the loop. -/
def interactiveLoop (fetch : Fetcher ε α) (input : Nat → String) :
    Nat → List α → Option String → Nat → List (Event α) → LoopResult ε α
  | _, items, none, _, tr => .ok items none tr
  | 0, items, some url, _, tr =>
      if url.data.isEmpty then .ok items (some url) tr else .fuelOut
  | fuel + 1, items, some url, pos, tr =>
      if url.data.isEmpty then .ok items (some url) tr
      else
        let tr1 := tr ++ [Event.showingMsg items.length, Event.promptShown]
        let choice := normalize (input pos)
        if choice = "q" then .ok items (some url) tr1
        else if choice = "a" then
          match fetchAllLoop fetch fuel items (some url) tr1 with
          | .ok items2 cursor2 tr2 => .ok items2 cursor2 (tr2 ++ [Event.display items2])
          | r => r
        else if choice = "" then
          match fetch url with
          | .error e => .fail e (tr1 ++ [Event.fetchCalled url])
          | .ok (nextItems, nextUrl) =>
              interactiveLoop fetch input fuel (items ++ nextItems) nextUrl (pos + 1)
                (tr1 ++ [Event.fetchCalled url, Event.display nextItems])
        else
          interactiveLoop fetch input fuel items (some url) (pos + 1)
            (tr1 ++ [Event.invalidMsg])

/-- The embedding of `handle_pagination(items, next_page_url, fetch_next_page,
format_func, all_pages, interactive)`.  `all_items = items.copy()` is the
initial accumulator; if `all_pages` is set, run the automatic loop; else if
the cursor is absent or `interactive` is false, return the first page as is;
else display the current page and enter the interactive prompt loop. -/
def handle_pagination (fetch : Fetcher ε α) (input : Nat → String)
    (items : List α) (next_page_url : Option String)
    (all_pages : Bool) (interactive : Bool) (fuel : Nat) : LoopResult ε α :=
  if all_pages then fetchAllLoop fetch fuel items next_page_url []
  else if cursorPresent next_page_url = false then .ok items next_page_url []
  else if interactive = false then .ok items next_page_url []
  else interactiveLoop fetch input fuel items next_page_url 0 [Event.display items]

/-- The returned `all_items` of a normal return. -/
def LoopResult.itemsOf : LoopResult ε α → Option (List α)
  | .ok items _ _ => some items
  | _ => none

/-- The event trace of a completed (returned or raised) run. -/
def LoopResult.traceOf : LoopResult ε α → Option (List (Event α))
  | .ok _ _ t => some t
  | .fail _ t => some t
  | .fuelOut => none

/-- Is this event an invocation of the fetcher? -/
def isFetchEvent : Event α → Bool
  | .fetchCalled _ => true
  | _ => false

/-- Is this event a showing of the interactive prompt? -/
def isPromptEvent : Event α → Bool
  | .promptShown => true
  | _ => false

/-- Is this event a display of formatted items (a `format_func` call echoed
to stdout)? -/
def isDisplayEvent : Event α → Bool
  | .display _ => true
  | _ => false

/-- Is this event any output emitted by the engine itself (stderr messages,
the prompt, or a stdout display)?  Only fetcher invocations are not output. -/
def isOutputEvent : Event α → Bool
  | .fetchCalled _ => false
  | _ => true

/-- Number of fetcher invocations recorded in a trace. -/
def countFetches (t : List (Event α)) : Nat := t.countP isFetchEvent

/-- Number of prompts recorded in a trace. -/
def countPrompts (t : List (Event α)) : Nat := t.countP isPromptEvent

/-- Number of stdout displays recorded in a trace. -/
def countDisplays (t : List (Event α)) : Nat := t.countP isDisplayEvent

/-- Number of output events (of any kind) recorded in a trace. -/
def countOutputs (t : List (Event α)) : Nat := t.countP isOutputEvent

/-- `Chain fetch cursor pages`: starting from `cursor`, repeatedly calling the
fetcher succeeds and yields exactly the pages `pages` (in order) before the
cursor becomes absent.  This is the "finite cursor chain" of the spec. -/
inductive Chain (fetch : Fetcher ε α) : Option String → List (List α) → Prop
  | nil (c : Option String) : cursorPresent c = false → Chain fetch c []
  | cons (url : String) (is : List α) (next : Option String) (rest : List (List α)) :
      url.data.isEmpty = false → fetch url = .ok (is, next) →
      Chain fetch next rest → Chain fetch (some url) (is :: rest)

/-- `ChainTo fetch cursor pages u`: starting from `cursor`, the fetcher
succeeds on the pages `pages` and then reaches the present cursor `u`
(whose fetch may be about to fail). -/
inductive ChainTo (fetch : Fetcher ε α) : Option String → List (List α) → String → Prop
  | here (url : String) : url.data.isEmpty = false → ChainTo fetch (some url) [] url
  | there (url : String) (is : List α) (next : Option String) (rest : List (List α)) (u : String) :
      url.data.isEmpty = false → fetch url = .ok (is, next) →
      ChainTo fetch next rest u → ChainTo fetch (some url) (is :: rest) u

/-- A cursor the engine may legitimately pass to the fetcher: either the
initial `next_page_url`, or a cursor returned by a fetch on a reachable
cursor.  The first page itself has no such cursor, so a fetch of a reachable
cursor is never a re-fetch of the first page. -/
inductive ReachableCursor (fetch : Fetcher ε α) (c0 : Option String) : String → Prop
  | init (url : String) : c0 = some url → ReachableCursor fetch c0 url
  | step (u : String) (is : List α) (url : String) :
      ReachableCursor fetch c0 u → fetch u = .ok (is, some url) →
      ReachableCursor fetch c0 url

/-- Termination of `handle_pagination` at given arguments: some finite fuel
suffices for the run to complete (return or raise) rather than time out. -/
def Terminates (fetch : Fetcher ε α) (input : Nat → String) (items : List α)
    (next_page_url : Option String) (all_pages : Bool) (interactive : Bool) : Prop :=
  ∃ fuel, handle_pagination fetch input items next_page_url all_pages interactive fuel ≠
    LoopResult.fuelOut


/-! ### Concrete fixtures (used by witnesses and counterexamples) -/

/-- The three-page fetcher of the spec scenario: page two has items `[2]` and
cursor `"p3"`; page three has items `[3]` and no cursor; any other URL fails. -/
def specFetcher : Fetcher String Nat := fun url =>
  if url = "p2" then .ok ([2], some "p3")
  else if url = "p3" then .ok ([3], none)
  else .error "fetch failed"

/-- A fetcher whose every call raises a transport error. -/
def failFetcher : Fetcher String Nat := fun _ => .error "fetch failed"

/-- A one-remaining-page fetcher: `"p2"` yields items `[2]` and no cursor. -/
def finiteFetcher : Fetcher String Nat := fun url =>
  if url = "p2" then .ok ([2], none) else .error "fetch failed"

/-- Input stream that always answers `"q"`. -/
def inpQ : Nat → String := fun _ => "q"

/-- Input stream that always answers the invalid choice `"x"`. -/
def inpX : Nat → String := fun _ => "x"

/-- Input stream answering `""` first and `"q"` afterwards. -/
def inpEmptyQ : Nat → String := fun n => if n = 0 then "" else "q"

/-- Input stream answering `"a"` first and `"q"` afterwards. -/
def inpAQ : Nat → String := fun n => if n = 0 then "a" else "q"

/-- Input stream answering the invalid `"x"` first and `"q"` afterwards. -/
def inpXQ : Nat → String := fun n => if n = 0 then "x" else "q"

/-! ### Unfolding lemmas for the two loops -/

theorem fetchAllLoop_none (fetch : Fetcher ε α) (fuel : Nat) (items : List α)
    (tr : List (Event α)) :
    fetchAllLoop fetch fuel items none tr = .ok items none tr := by
  cases fuel <;> rfl

theorem fetchAllLoop_notPresent (fetch : Fetcher ε α) (fuel : Nat) (items : List α)
    (c : Option String) (tr : List (Event α)) (hc : cursorPresent c = false) :
    fetchAllLoop fetch fuel items c tr = .ok items c tr := by
  cases c with
  | none => exact fetchAllLoop_none ..
  | some url =>
    have hu : url.data.isEmpty = true := by
      simpa [cursorPresent] using hc
    cases fuel <;> simp [fetchAllLoop, hu]

theorem fetchAllLoop_step_ok (fetch : Fetcher ε α) (fuel : Nat) (items ni : List α)
    (url : String) (nu : Option String) (tr : List (Event α))
    (hu : url.data.isEmpty = false) (hf : fetch url = .ok (ni, nu)) :
    fetchAllLoop fetch (fuel + 1) items (some url) tr =
      fetchAllLoop fetch fuel (items ++ ni) nu
        (tr ++ [Event.loadingMsg items.length, Event.fetchCalled url]) := by
  simp [fetchAllLoop, hu, hf]

theorem fetchAllLoop_step_err (fetch : Fetcher ε α) (fuel : Nat) (items : List α)
    (url : String) (e : ε) (tr : List (Event α))
    (hu : url.data.isEmpty = false) (hf : fetch url = .error e) :
    fetchAllLoop fetch (fuel + 1) items (some url) tr =
      .fail e (tr ++ [Event.loadingMsg items.length, Event.fetchCalled url]) := by
  simp [fetchAllLoop, hu, hf]

theorem interactiveLoop_none (fetch : Fetcher ε α) (input : Nat → String) (fuel : Nat)
    (items : List α) (pos : Nat) (tr : List (Event α)) :
    interactiveLoop fetch input fuel items none pos tr = .ok items none tr := by
  cases fuel <;> rfl

theorem interactiveLoop_notPresent (fetch : Fetcher ε α) (input : Nat → String) (fuel : Nat)
    (items : List α) (c : Option String) (pos : Nat) (tr : List (Event α))
    (hc : cursorPresent c = false) :
    interactiveLoop fetch input fuel items c pos tr = .ok items c tr := by
  cases c with
  | none => exact interactiveLoop_none ..
  | some url =>
    have hu : url.data.isEmpty = true := by
      simpa [cursorPresent] using hc
    cases fuel <;> simp [interactiveLoop, hu]

theorem interactiveLoop_q (fetch : Fetcher ε α) (input : Nat → String) (fuel : Nat)
    (items : List α) (url : String) (pos : Nat) (tr : List (Event α))
    (hu : url.data.isEmpty = false) (hq : normalize (input pos) = "q") :
    interactiveLoop fetch input (fuel + 1) items (some url) pos tr =
      .ok items (some url) (tr ++ [Event.showingMsg items.length, Event.promptShown]) := by
  simp [interactiveLoop, hu, hq]

theorem interactiveLoop_a (fetch : Fetcher ε α) (input : Nat → String) (fuel : Nat)
    (items : List α) (url : String) (pos : Nat) (tr : List (Event α))
    (hu : url.data.isEmpty = false) (ha : normalize (input pos) = "a") :
    interactiveLoop fetch input (fuel + 1) items (some url) pos tr =
      match fetchAllLoop fetch fuel items (some url)
          (tr ++ [Event.showingMsg items.length, Event.promptShown]) with
      | .ok items2 cursor2 tr2 => .ok items2 cursor2 (tr2 ++ [Event.display items2])
      | r => r := by
  simp [interactiveLoop, hu, ha]

theorem interactiveLoop_empty_ok (fetch : Fetcher ε α) (input : Nat → String) (fuel : Nat)
    (items ni : List α) (url : String) (nu : Option String) (pos : Nat) (tr : List (Event α))
    (hu : url.data.isEmpty = false) (he : normalize (input pos) = "")
    (hf : fetch url = .ok (ni, nu)) :
    interactiveLoop fetch input (fuel + 1) items (some url) pos tr =
      interactiveLoop fetch input fuel (items ++ ni) nu (pos + 1)
        (tr ++ [Event.showingMsg items.length, Event.promptShown,
                Event.fetchCalled url, Event.display ni]) := by
  simp [interactiveLoop, hu, he, hf]

theorem interactiveLoop_empty_err (fetch : Fetcher ε α) (input : Nat → String) (fuel : Nat)
    (items : List α) (url : String) (e : ε) (pos : Nat) (tr : List (Event α))
    (hu : url.data.isEmpty = false) (he : normalize (input pos) = "")
    (hf : fetch url = .error e) :
    interactiveLoop fetch input (fuel + 1) items (some url) pos tr =
      .fail e (tr ++ [Event.showingMsg items.length, Event.promptShown,
                      Event.fetchCalled url]) := by
  simp [interactiveLoop, hu, he, hf]

theorem interactiveLoop_invalid (fetch : Fetcher ε α) (input : Nat → String) (fuel : Nat)
    (items : List α) (url : String) (pos : Nat) (tr : List (Event α))
    (hu : url.data.isEmpty = false) (hq : normalize (input pos) ≠ "q")
    (ha : normalize (input pos) ≠ "a") (he : normalize (input pos) ≠ "") :
    interactiveLoop fetch input (fuel + 1) items (some url) pos tr =
      interactiveLoop fetch input fuel items (some url) (pos + 1)
        (tr ++ [Event.showingMsg items.length, Event.promptShown, Event.invalidMsg]) := by
  simp [interactiveLoop, hu, hq, ha, he]

/-! ### Trace-count bookkeeping -/

@[simp] theorem countFetches_append (a b : List (Event α)) :
    countFetches (a ++ b) = countFetches a + countFetches b := by
  simp [countFetches, List.countP_append]

@[simp] theorem countPrompts_append (a b : List (Event α)) :
    countPrompts (a ++ b) = countPrompts a + countPrompts b := by
  simp [countPrompts, List.countP_append]

@[simp] theorem countDisplays_append (a b : List (Event α)) :
    countDisplays (a ++ b) = countDisplays a + countDisplays b := by
  simp [countDisplays, List.countP_append]

/-! ### The automatic loop along a successful finite chain -/

/-- Running the fetch-everything loop along a finite successful chain appends
exactly the concatenation of the chain's pages, ends on an absent cursor,
makes one fetch call per page, and emits no prompt and no display. -/
theorem fetchAllLoop_chain (fetch : Fetcher ε α) {cursor : Option String}
    {pages : List (List α)} (h : Chain fetch cursor pages) :
    ∀ fuel (items : List α) (tr : List (Event α)), pages.length ≤ fuel →
    ∃ δ c2, fetchAllLoop fetch fuel items cursor tr =
        .ok (items ++ pages.flatten) c2 (tr ++ δ) ∧
      cursorPresent c2 = false ∧ countFetches δ = pages.length ∧
      countPrompts δ = 0 ∧ countDisplays δ = 0 := by
  induction h with
  | nil c hc =>
    intro fuel items tr _
    refine ⟨[], c, ?_, hc, ?_, ?_, ?_⟩ <;>
      simp [fetchAllLoop_notPresent fetch fuel items c tr hc,
        countFetches, countPrompts, countDisplays]
  | cons url is next rest hu hf hch ih =>
    intro fuel items tr hlen
    cases fuel with
    | zero => simp at hlen
    | succ f =>
      rw [fetchAllLoop_step_ok fetch f items is url next tr hu hf]
      have hlen' : rest.length ≤ f := by
        simp only [List.length_cons] at hlen; omega
      obtain ⟨δ, c2, heq, hc2, hcf, hcp, hcd⟩ :=
        ih f (items ++ is)
          (tr ++ [Event.loadingMsg items.length, Event.fetchCalled url]) hlen'
      refine ⟨[Event.loadingMsg items.length, Event.fetchCalled url] ++ δ, c2,
        ?_, hc2, ?_, ?_, ?_⟩
      · rw [heq]; simp
      · rw [countFetches_append, hcf]
        simp [countFetches, List.countP_cons, isFetchEvent, Nat.add_comm]
      · rw [countPrompts_append, hcp]
        simp [countPrompts, List.countP_cons, isPromptEvent]
      · rw [countDisplays_append, hcd]
        simp [countDisplays, List.countP_cons, isDisplayEvent]

/-- Running the fetch-everything loop along a chain that reaches a failing
cursor raises that error: the run fails with the fetcher's error, makes one
fetch call per successful page plus the failing one, and emits no prompt and
no display. -/
theorem fetchAllLoop_chainTo_fail (fetch : Fetcher ε α) {cursor : Option String}
    {pages : List (List α)} {u : String} (h : ChainTo fetch cursor pages u) :
    ∀ fuel (items : List α) (tr : List (Event α)) (e : ε), fetch u = .error e →
    pages.length < fuel →
    ∃ δ, fetchAllLoop fetch fuel items cursor tr = .fail e (tr ++ δ) ∧
      countFetches δ = pages.length + 1 ∧ countPrompts δ = 0 ∧ countDisplays δ = 0 := by
  induction h with
  | here url hu =>
    intro fuel items tr e herr hlen
    cases fuel with
    | zero => simp at hlen
    | succ f =>
      refine ⟨[Event.loadingMsg items.length, Event.fetchCalled url], ?_, ?_, ?_, ?_⟩
      · exact fetchAllLoop_step_err fetch f items url e tr hu herr
      · simp [countFetches, List.countP_cons, isFetchEvent]
      · simp [countPrompts, List.countP_cons, isPromptEvent]
      · simp [countDisplays, List.countP_cons, isDisplayEvent]
  | there url is next rest u hu hf hch ih =>
    intro fuel items tr e herr hlen
    cases fuel with
    | zero => simp at hlen
    | succ f =>
      rw [fetchAllLoop_step_ok fetch f items is url next tr hu hf]
      have hlen' : rest.length < f := by
        simp only [List.length_cons] at hlen; omega
      obtain ⟨δ, heq, hcf, hcp, hcd⟩ :=
        ih f (items ++ is)
          (tr ++ [Event.loadingMsg items.length, Event.fetchCalled url]) e herr hlen'
      refine ⟨[Event.loadingMsg items.length, Event.fetchCalled url] ++ δ, ?_, ?_, ?_, ?_⟩
      · rw [heq]; simp
      · rw [countFetches_append, hcf]
        simp [countFetches, List.countP_cons, isFetchEvent]
        omega
      · rw [countPrompts_append, hcp]
        simp [countPrompts, List.countP_cons, isPromptEvent]
      · rw [countDisplays_append, hcd]
        simp [countDisplays, List.countP_cons, isDisplayEvent]

/-! ### Structural invariants of the automatic loop -/

/-- On any normal return of the fetch-everything loop, the initial
accumulator is an unchanged initial segment of the returned items. -/
theorem fetchAllLoop_grows (fetch : Fetcher ε α) :
    ∀ fuel (items : List α) (cursor : Option String) (tr : List (Event α)) i2 c2 t2,
    fetchAllLoop fetch fuel items cursor tr = .ok i2 c2 t2 →
    ∃ rest, i2 = items ++ rest := by
  intro fuel
  induction fuel with
  | zero =>
    intro items cursor tr i2 c2 t2 h
    cases cursor with
    | none =>
      rw [fetchAllLoop_none] at h
      injection h with h1 _ _
      exact ⟨[], by simp [h1]⟩
    | some url =>
      by_cases hu : url.data.isEmpty
      · simp only [fetchAllLoop, hu, if_true] at h
        injection h with h1 _ _
        exact ⟨[], by simp [h1]⟩
      · simp [fetchAllLoop, hu] at h
  | succ f ih =>
    intro items cursor tr i2 c2 t2 h
    cases cursor with
    | none =>
      rw [fetchAllLoop_none] at h
      injection h with h1 _ _
      exact ⟨[], by simp [h1]⟩
    | some url =>
      by_cases hu : url.data.isEmpty
      · simp only [fetchAllLoop, hu, if_true] at h
        injection h with h1 _ _
        exact ⟨[], by simp [h1]⟩
      · rw [Bool.not_eq_true] at hu
        cases hf : fetch url with
        | error e =>
          rw [fetchAllLoop_step_err fetch f items url e tr hu hf] at h
          exact absurd h (by simp)
        | ok p =>
          obtain ⟨ni, nu⟩ := p
          rw [fetchAllLoop_step_ok fetch f items ni url nu tr hu hf] at h
          obtain ⟨rest, hrest⟩ := ih (items ++ ni) nu _ i2 c2 t2 h
          exact ⟨ni ++ rest, by simp [hrest]⟩

/-- The fetch-everything loop only appends to the event trace: on any
completed run, the incoming trace is a prefix of the final one. -/
theorem fetchAllLoop_trace_extends (fetch : Fetcher ε α) :
    ∀ fuel (items : List α) (cursor : Option String) (tr : List (Event α)) t,
    (fetchAllLoop fetch fuel items cursor tr).traceOf = some t → tr <+: t := by
  intro fuel
  induction fuel with
  | zero =>
    intro items cursor tr t h
    cases cursor with
    | none =>
      rw [fetchAllLoop_none] at h
      simp only [LoopResult.traceOf, Option.some.injEq] at h
      exact h ▸ List.prefix_refl tr
    | some url =>
      by_cases hu : url.data.isEmpty
      · simp only [fetchAllLoop, hu, if_true, LoopResult.traceOf, Option.some.injEq] at h
        exact h ▸ List.prefix_refl tr
      · simp [fetchAllLoop, hu, LoopResult.traceOf] at h
  | succ f ih =>
    intro items cursor tr t h
    cases cursor with
    | none =>
      rw [fetchAllLoop_none] at h
      simp only [LoopResult.traceOf, Option.some.injEq] at h
      exact h ▸ List.prefix_refl tr
    | some url =>
      by_cases hu : url.data.isEmpty
      · simp only [fetchAllLoop, hu, if_true, LoopResult.traceOf, Option.some.injEq] at h
        exact h ▸ List.prefix_refl tr
      · rw [Bool.not_eq_true] at hu
        cases hf : fetch url with
        | error e =>
          rw [fetchAllLoop_step_err fetch f items url e tr hu hf] at h
          simp only [LoopResult.traceOf, Option.some.injEq] at h
          exact h ▸ List.prefix_append tr _
        | ok p =>
          obtain ⟨ni, nu⟩ := p
          rw [fetchAllLoop_step_ok fetch f items ni url nu tr hu hf] at h
          exact (List.prefix_append tr _).trans (ih (items ++ ni) nu _ t h)

/-- The fetch-everything loop never displays items: on any completed run the
number of display events is unchanged. -/
theorem fetchAllLoop_no_display (fetch : Fetcher ε α) :
    ∀ fuel (items : List α) (cursor : Option String) (tr : List (Event α)) t,
    (fetchAllLoop fetch fuel items cursor tr).traceOf = some t →
    countDisplays t = countDisplays tr := by
  intro fuel
  induction fuel with
  | zero =>
    intro items cursor tr t h
    cases cursor with
    | none =>
      rw [fetchAllLoop_none] at h
      simp only [LoopResult.traceOf, Option.some.injEq] at h
      rw [← h]
    | some url =>
      by_cases hu : url.data.isEmpty
      · simp only [fetchAllLoop, hu, if_true, LoopResult.traceOf, Option.some.injEq] at h
        rw [← h]
      · simp [fetchAllLoop, hu, LoopResult.traceOf] at h
  | succ f ih =>
    intro items cursor tr t h
    cases cursor with
    | none =>
      rw [fetchAllLoop_none] at h
      simp only [LoopResult.traceOf, Option.some.injEq] at h
      rw [← h]
    | some url =>
      by_cases hu : url.data.isEmpty
      · simp only [fetchAllLoop, hu, if_true, LoopResult.traceOf, Option.some.injEq] at h
        rw [← h]
      · rw [Bool.not_eq_true] at hu
        cases hf : fetch url with
        | error e =>
          rw [fetchAllLoop_step_err fetch f items url e tr hu hf] at h
          simp only [LoopResult.traceOf, Option.some.injEq] at h
          rw [← h, countDisplays_append]
          simp [countDisplays, List.countP_cons, isDisplayEvent]
        | ok p =>
          obtain ⟨ni, nu⟩ := p
          rw [fetchAllLoop_step_ok fetch f items ni url nu tr hu hf] at h
          rw [ih (items ++ ni) nu _ t h, countDisplays_append]
          simp [countDisplays, List.countP_cons, isDisplayEvent]

/-- Every fetcher invocation recorded by the fetch-everything loop is on a
nonempty (present) cursor that is reachable from the initial cursor `c0`. -/
theorem fetchAllLoop_reachable (fetch : Fetcher ε α) (c0 : Option String) :
    ∀ fuel (items : List α) (cursor : Option String) (tr : List (Event α)),
    (∀ u, cursor = some u → ReachableCursor fetch c0 u) →
    (∀ u, Event.fetchCalled u ∈ tr → u.data.isEmpty = false ∧ ReachableCursor fetch c0 u) →
    ∀ t, (fetchAllLoop fetch fuel items cursor tr).traceOf = some t →
    ∀ u, Event.fetchCalled u ∈ t → u.data.isEmpty = false ∧ ReachableCursor fetch c0 u := by
  intro fuel
  induction fuel with
  | zero =>
    intro items cursor tr hcur htr t h
    cases cursor with
    | none =>
      rw [fetchAllLoop_none] at h
      simp only [LoopResult.traceOf, Option.some.injEq] at h
      exact h ▸ htr
    | some url =>
      by_cases hu : url.data.isEmpty
      · simp only [fetchAllLoop, hu, if_true, LoopResult.traceOf, Option.some.injEq] at h
        exact h ▸ htr
      · simp [fetchAllLoop, hu, LoopResult.traceOf] at h
  | succ f ih =>
    intro items cursor tr hcur htr t h
    cases cursor with
    | none =>
      rw [fetchAllLoop_none] at h
      simp only [LoopResult.traceOf, Option.some.injEq] at h
      exact h ▸ htr
    | some url =>
      by_cases hu : url.data.isEmpty
      · simp only [fetchAllLoop, hu, if_true, LoopResult.traceOf, Option.some.injEq] at h
        exact h ▸ htr
      · rw [Bool.not_eq_true] at hu
        have hreach : ReachableCursor fetch c0 url := hcur url rfl
        have htr' : ∀ u, Event.fetchCalled u ∈
            tr ++ [Event.loadingMsg items.length, Event.fetchCalled url] →
            u.data.isEmpty = false ∧ ReachableCursor fetch c0 u := by
          intro u hmem
          rcases List.mem_append.mp hmem with hl | hr
          · exact htr u hl
          · simp only [List.mem_cons, List.not_mem_nil, or_false] at hr
            rcases hr with h1 | h1
            · exact absurd h1 (by simp)
            · injection h1 with h2
              subst h2
              exact ⟨hu, hreach⟩
        cases hf : fetch url with
        | error e =>
          rw [fetchAllLoop_step_err fetch f items url e tr hu hf] at h
          simp only [LoopResult.traceOf, Option.some.injEq] at h
          exact h ▸ htr'
        | ok p =>
          obtain ⟨ni, nu⟩ := p
          rw [fetchAllLoop_step_ok fetch f items ni url nu tr hu hf] at h
          refine ih (items ++ ni) nu _ ?_ htr' t h
          intro u hun
          exact ReachableCursor.step url ni u hreach (hun ▸ hf)
/-! ### Structural invariants of the interactive loop -/

/-- On any normal return of the interactive loop, the initial accumulator is
an unchanged initial segment of the returned items. -/
theorem interactiveLoop_grows (fetch : Fetcher ε α) (input : Nat → String) :
    ∀ fuel (items : List α) (cursor : Option String) (pos : Nat) (tr : List (Event α)) i2 c2 t2,
    interactiveLoop fetch input fuel items cursor pos tr = .ok i2 c2 t2 →
    ∃ rest, i2 = items ++ rest := by
  intro fuel
  induction fuel with
  | zero =>
    intro items cursor pos tr i2 c2 t2 h
    cases cursor with
    | none =>
      rw [interactiveLoop_none] at h
      injection h with h1 _ _
      exact ⟨[], by simp [h1]⟩
    | some url =>
      by_cases hu : url.data.isEmpty
      · simp only [interactiveLoop, hu, if_true] at h
        injection h with h1 _ _
        exact ⟨[], by simp [h1]⟩
      · simp [interactiveLoop, hu] at h
  | succ f ih =>
    intro items cursor pos tr i2 c2 t2 h
    cases cursor with
    | none =>
      rw [interactiveLoop_none] at h
      injection h with h1 _ _
      exact ⟨[], by simp [h1]⟩
    | some url =>
      by_cases hu : url.data.isEmpty
      · simp only [interactiveLoop, hu, if_true] at h
        injection h with h1 _ _
        exact ⟨[], by simp [h1]⟩
      · rw [Bool.not_eq_true] at hu
        by_cases hq : normalize (input pos) = "q"
        · rw [interactiveLoop_q fetch input f items url pos tr hu hq] at h
          injection h with h1 _ _
          exact ⟨[], by simp [h1]⟩
        · by_cases ha : normalize (input pos) = "a"
          · rw [interactiveLoop_a fetch input f items url pos tr hu ha] at h
            cases hfa : fetchAllLoop fetch f items (some url)
                (tr ++ [Event.showingMsg items.length, Event.promptShown]) with
            | ok ia ca ta =>
              simp only [hfa] at h
              injection h with h1 _ _
              obtain ⟨rest, hr⟩ := fetchAllLoop_grows fetch f items (some url) _ ia ca ta hfa
              exact ⟨rest, by rw [← h1, hr]⟩
            | fail e ta =>
              simp only [hfa] at h
              exact LoopResult.noConfusion h
            | fuelOut =>
              simp only [hfa] at h
              exact LoopResult.noConfusion h
          · by_cases he : normalize (input pos) = ""
            · cases hf : fetch url with
              | error e =>
                rw [interactiveLoop_empty_err fetch input f items url e pos tr hu he hf] at h
                exact LoopResult.noConfusion h
              | ok p =>
                obtain ⟨ni, nu⟩ := p
                rw [interactiveLoop_empty_ok fetch input f items ni url nu pos tr hu he hf] at h
                obtain ⟨rest, hr⟩ := ih (items ++ ni) nu (pos + 1) _ i2 c2 t2 h
                exact ⟨ni ++ rest, by simp [hr]⟩
            · rw [interactiveLoop_invalid fetch input f items url pos tr hu hq ha he] at h
              exact ih items (some url) (pos + 1) _ i2 c2 t2 h

/-- The interactive loop only appends to the event trace: on any completed
run, the incoming trace is a prefix of the final one. -/
theorem interactiveLoop_trace_extends (fetch : Fetcher ε α) (input : Nat → String) :
    ∀ fuel (items : List α) (cursor : Option String) (pos : Nat) (tr : List (Event α)) t,
    (interactiveLoop fetch input fuel items cursor pos tr).traceOf = some t → tr <+: t := by
  intro fuel
  induction fuel with
  | zero =>
    intro items cursor pos tr t h
    cases cursor with
    | none =>
      rw [interactiveLoop_none] at h
      simp only [LoopResult.traceOf, Option.some.injEq] at h
      exact h ▸ List.prefix_refl tr
    | some url =>
      by_cases hu : url.data.isEmpty
      · simp only [interactiveLoop, hu, if_true, LoopResult.traceOf, Option.some.injEq] at h
        exact h ▸ List.prefix_refl tr
      · simp [interactiveLoop, hu, LoopResult.traceOf] at h
  | succ f ih =>
    intro items cursor pos tr t h
    cases cursor with
    | none =>
      rw [interactiveLoop_none] at h
      simp only [LoopResult.traceOf, Option.some.injEq] at h
      exact h ▸ List.prefix_refl tr
    | some url =>
      by_cases hu : url.data.isEmpty
      · simp only [interactiveLoop, hu, if_true, LoopResult.traceOf, Option.some.injEq] at h
        exact h ▸ List.prefix_refl tr
      · rw [Bool.not_eq_true] at hu
        by_cases hq : normalize (input pos) = "q"
        · rw [interactiveLoop_q fetch input f items url pos tr hu hq] at h
          simp only [LoopResult.traceOf, Option.some.injEq] at h
          exact h ▸ List.prefix_append tr _
        · by_cases ha : normalize (input pos) = "a"
          · rw [interactiveLoop_a fetch input f items url pos tr hu ha] at h
            cases hfa : fetchAllLoop fetch f items (some url)
                (tr ++ [Event.showingMsg items.length, Event.promptShown]) with
            | ok ia ca ta =>
              simp only [hfa] at h
              simp only [LoopResult.traceOf, Option.some.injEq] at h
              have h2 : (tr ++ [Event.showingMsg items.length, Event.promptShown]) <+: ta :=
                fetchAllLoop_trace_extends fetch f items (some url) _ ta (by rw [hfa]; rfl)
              exact h ▸ ((List.prefix_append tr _).trans (h2.trans (List.prefix_append ta _)))
            | fail e ta =>
              simp only [hfa] at h
              simp only [LoopResult.traceOf, Option.some.injEq] at h
              have h2 : (tr ++ [Event.showingMsg items.length, Event.promptShown]) <+: ta :=
                fetchAllLoop_trace_extends fetch f items (some url) _ ta (by rw [hfa]; rfl)
              exact h ▸ ((List.prefix_append tr _).trans h2)
            | fuelOut =>
              simp only [hfa] at h
              simp [LoopResult.traceOf] at h
          · by_cases he : normalize (input pos) = ""
            · cases hf : fetch url with
              | error e =>
                rw [interactiveLoop_empty_err fetch input f items url e pos tr hu he hf] at h
                simp only [LoopResult.traceOf, Option.some.injEq] at h
                exact h ▸ List.prefix_append tr _
              | ok p =>
                obtain ⟨ni, nu⟩ := p
                rw [interactiveLoop_empty_ok fetch input f items ni url nu pos tr hu he hf] at h
                exact (List.prefix_append tr _).trans (ih (items ++ ni) nu (pos + 1) _ t h)
            · rw [interactiveLoop_invalid fetch input f items url pos tr hu hq ha he] at h
              exact (List.prefix_append tr _).trans (ih items (some url) (pos + 1) _ t h)

/-- Whenever the interactive loop runs with a present cursor and fuel left,
its first two recorded events are the "more pages" message and the prompt:
any completed trace extends the incoming trace by them. -/
theorem interactiveLoop_prompts_first (fetch : Fetcher ε α) (input : Nat → String)
    (f : Nat) (items : List α) (url : String) (pos : Nat) (tr : List (Event α))
    (hu : url.data.isEmpty = false) :
    ∀ t, (interactiveLoop fetch input (f + 1) items (some url) pos tr).traceOf = some t →
    (tr ++ [Event.showingMsg items.length, Event.promptShown]) <+: t := by
  intro t h
  by_cases hq : normalize (input pos) = "q"
  · rw [interactiveLoop_q fetch input f items url pos tr hu hq] at h
    simp only [LoopResult.traceOf, Option.some.injEq] at h
    exact h ▸ List.prefix_refl _
  · by_cases ha : normalize (input pos) = "a"
    · rw [interactiveLoop_a fetch input f items url pos tr hu ha] at h
      cases hfa : fetchAllLoop fetch f items (some url)
          (tr ++ [Event.showingMsg items.length, Event.promptShown]) with
      | ok ia ca ta =>
        simp only [hfa] at h
        simp only [LoopResult.traceOf, Option.some.injEq] at h
        have h2 := fetchAllLoop_trace_extends fetch f items (some url) _ ta (by rw [hfa]; rfl)
        exact h ▸ (h2.trans (List.prefix_append ta _))
      | fail e ta =>
        simp only [hfa] at h
        simp only [LoopResult.traceOf, Option.some.injEq] at h
        exact h ▸ fetchAllLoop_trace_extends fetch f items (some url) _ ta (by rw [hfa]; rfl)
      | fuelOut =>
        simp only [hfa] at h
        simp [LoopResult.traceOf] at h
    · by_cases he : normalize (input pos) = ""
      · cases hf : fetch url with
        | error e =>
          rw [interactiveLoop_empty_err fetch input f items url e pos tr hu he hf] at h
          simp only [LoopResult.traceOf, Option.some.injEq] at h
          refine h ▸ ?_
          refine List.IsPrefix.trans ?_ (List.prefix_refl _)
          exact ⟨[Event.fetchCalled url], by simp⟩
        | ok p =>
          obtain ⟨ni, nu⟩ := p
          rw [interactiveLoop_empty_ok fetch input f items ni url nu pos tr hu he hf] at h
          have h2 := interactiveLoop_trace_extends fetch input f (items ++ ni) nu (pos + 1) _ t h
          refine List.IsPrefix.trans ?_ h2
          exact ⟨[Event.fetchCalled url, Event.display ni], by simp⟩
      · rw [interactiveLoop_invalid fetch input f items url pos tr hu hq ha he] at h
        have h2 := interactiveLoop_trace_extends fetch input f items (some url) (pos + 1) _ t h
        refine List.IsPrefix.trans ?_ h2
        exact ⟨[Event.invalidMsg], by simp⟩

/-- Every fetcher invocation recorded by the interactive loop is on a
nonempty (present) cursor that is reachable from the initial cursor `c0`. -/
theorem interactiveLoop_reachable (fetch : Fetcher ε α) (input : Nat → String)
    (c0 : Option String) :
    ∀ fuel (items : List α) (cursor : Option String) (pos : Nat) (tr : List (Event α)),
    (∀ u, cursor = some u → ReachableCursor fetch c0 u) →
    (∀ u, Event.fetchCalled u ∈ tr → u.data.isEmpty = false ∧ ReachableCursor fetch c0 u) →
    ∀ t, (interactiveLoop fetch input fuel items cursor pos tr).traceOf = some t →
    ∀ u, Event.fetchCalled u ∈ t → u.data.isEmpty = false ∧ ReachableCursor fetch c0 u := by
  intro fuel
  induction fuel with
  | zero =>
    intro items cursor pos tr hcur htr t h
    cases cursor with
    | none =>
      rw [interactiveLoop_none] at h
      simp only [LoopResult.traceOf, Option.some.injEq] at h
      exact h ▸ htr
    | some url =>
      by_cases hu : url.data.isEmpty
      · simp only [interactiveLoop, hu, if_true, LoopResult.traceOf, Option.some.injEq] at h
        exact h ▸ htr
      · simp [interactiveLoop, hu, LoopResult.traceOf] at h
  | succ f ih =>
    intro items cursor pos tr hcur htr t h
    cases cursor with
    | none =>
      rw [interactiveLoop_none] at h
      simp only [LoopResult.traceOf, Option.some.injEq] at h
      exact h ▸ htr
    | some url =>
      by_cases hu : url.data.isEmpty
      · simp only [interactiveLoop, hu, if_true, LoopResult.traceOf, Option.some.injEq] at h
        exact h ▸ htr
      · rw [Bool.not_eq_true] at hu
        have hreach : ReachableCursor fetch c0 url := hcur url rfl
        have htr1 : ∀ u, Event.fetchCalled u ∈
            tr ++ [Event.showingMsg items.length, Event.promptShown] →
            u.data.isEmpty = false ∧ ReachableCursor fetch c0 u := by
          intro u hmem
          rcases List.mem_append.mp hmem with hl | hr
          · exact htr u hl
          · simp only [List.mem_cons, List.not_mem_nil, or_false] at hr
            rcases hr with h1 | h1 <;> exact absurd h1 (by simp)
        by_cases hq : normalize (input pos) = "q"
        · rw [interactiveLoop_q fetch input f items url pos tr hu hq] at h
          simp only [LoopResult.traceOf, Option.some.injEq] at h
          exact h ▸ htr1
        · by_cases ha : normalize (input pos) = "a"
          · rw [interactiveLoop_a fetch input f items url pos tr hu ha] at h
            cases hfa : fetchAllLoop fetch f items (some url)
                (tr ++ [Event.showingMsg items.length, Event.promptShown]) with
            | ok ia ca ta =>
              simp only [hfa] at h
              simp only [LoopResult.traceOf, Option.some.injEq] at h
              have hta := fetchAllLoop_reachable fetch c0 f items (some url) _
                (fun u hun => by injection hun with h2; exact h2 ▸ hreach) htr1 ta
                (by rw [hfa]; rfl)
              intro u hmem
              rw [← h] at hmem
              rcases List.mem_append.mp hmem with hl | hr
              · exact hta u hl
              · simp only [List.mem_cons, List.not_mem_nil, or_false] at hr
                exact absurd hr (by simp)
            | fail e ta =>
              simp only [hfa] at h
              simp only [LoopResult.traceOf, Option.some.injEq] at h
              exact h ▸ fetchAllLoop_reachable fetch c0 f items (some url) _
                (fun u hun => by injection hun with h2; exact h2 ▸ hreach) htr1 ta
                (by rw [hfa]; rfl)
            | fuelOut =>
              simp only [hfa] at h
              simp [LoopResult.traceOf] at h
          · by_cases he : normalize (input pos) = ""
            · cases hf : fetch url with
              | error e =>
                rw [interactiveLoop_empty_err fetch input f items url e pos tr hu he hf] at h
                simp only [LoopResult.traceOf, Option.some.injEq] at h
                intro u hmem
                rw [← h] at hmem
                rcases List.mem_append.mp hmem with hl | hr
                · exact htr u hl
                · simp only [List.mem_cons, List.not_mem_nil, or_false] at hr
                  rcases hr with h1 | h1 | h1
                  · exact absurd h1 (by simp)
                  · exact absurd h1 (by simp)
                  · injection h1 with h2
                    exact h2 ▸ ⟨hu, hreach⟩
              | ok p =>
                obtain ⟨ni, nu⟩ := p
                rw [interactiveLoop_empty_ok fetch input f items ni url nu pos tr hu he hf] at h
                refine ih (items ++ ni) nu (pos + 1)
                  (tr ++ [Event.showingMsg items.length, Event.promptShown,
                    Event.fetchCalled url, Event.display ni]) ?_ ?_ t ?_
                · intro u hun
                  exact ReachableCursor.step url ni u hreach (hun ▸ hf)
                · intro u hmem
                  rcases List.mem_append.mp hmem with hl | hr
                  · exact htr u hl
                  · simp only [List.mem_cons, List.not_mem_nil, or_false] at hr
                    rcases hr with h1 | h1 | h1 | h1
                    · exact absurd h1 (by simp)
                    · exact absurd h1 (by simp)
                    · injection h1 with h2
                      exact h2 ▸ ⟨hu, hreach⟩
                    · exact absurd h1 (by simp)
                · exact h
            · rw [interactiveLoop_invalid fetch input f items url pos tr hu hq ha he] at h
              refine ih items (some url) (pos + 1) _ ?_ ?_ t h
              · intro u hun
                injection hun with h2
                exact h2 ▸ hreach
              · intro u hmem
                rcases List.mem_append.mp hmem with hl | hr
                · exact htr u hl
                · simp only [List.mem_cons, List.not_mem_nil, or_false] at hr
                  rcases hr with h1 | h1 | h1 <;> exact absurd h1 (by simp)

/-! ### Termination of the interactive loop -/

/-- If the remaining cursor chain is finite and the input line at offset `k`
normalizes to `"q"`, then fuel `k + pages + 1` is enough for the interactive
loop to complete: each iteration either exits or consumes one input line, and
an `"a"` on the way exhausts the finite chain. -/
theorem interactiveLoop_terminates_q (fetch : Fetcher ε α) (input : Nat → String) :
    ∀ k (pages : List (List α)) (items : List α) (cursor : Option String) (pos : Nat)
      (tr : List (Event α)) (fuel : Nat),
    Chain fetch cursor pages → normalize (input (pos + k)) = "q" →
    k + pages.length + 1 ≤ fuel →
    interactiveLoop fetch input fuel items cursor pos tr ≠ .fuelOut := by
  intro k
  induction k with
  | zero =>
    intro pages items cursor pos tr fuel hch hq hfuel
    cases fuel with
    | zero => omega
    | succ f =>
      cases cursor with
      | none => rw [interactiveLoop_none]; exact LoopResult.noConfusion
      | some url =>
        by_cases hu : url.data.isEmpty
        · simp only [interactiveLoop, hu, if_true]
          exact LoopResult.noConfusion
        · rw [Bool.not_eq_true] at hu
          rw [Nat.add_zero] at hq
          rw [interactiveLoop_q fetch input f items url pos tr hu hq]
          exact LoopResult.noConfusion
  | succ k ih =>
    intro pages items cursor pos tr fuel hch hq hfuel
    cases fuel with
    | zero => omega
    | succ f =>
      cases cursor with
      | none => rw [interactiveLoop_none]; exact LoopResult.noConfusion
      | some url =>
        by_cases hu : url.data.isEmpty
        · simp only [interactiveLoop, hu, if_true]
          exact LoopResult.noConfusion
        · rw [Bool.not_eq_true] at hu
          cases hch with
          | nil _ hc => simp [cursorPresent, hu] at hc
          | cons _ is next rest hu2 hf2 hch2 =>
            by_cases hq0 : normalize (input pos) = "q"
            · rw [interactiveLoop_q fetch input f items url pos tr hu hq0]
              exact LoopResult.noConfusion
            · by_cases ha0 : normalize (input pos) = "a"
              · rw [interactiveLoop_a fetch input f items url pos tr hu ha0]
                obtain ⟨δ, c2, heq, _, _, _, _⟩ :=
                  fetchAllLoop_chain fetch (Chain.cons url is next rest hu2 hf2 hch2) f items
                    (tr ++ [Event.showingMsg items.length, Event.promptShown])
                    (by simp only [List.length_cons] at hfuel ⊢; omega)
                rw [heq]
                exact LoopResult.noConfusion
              · by_cases he0 : normalize (input pos) = ""
                · rw [interactiveLoop_empty_ok fetch input f items is url next pos tr hu he0 hf2]
                  refine ih rest (items ++ is) next (pos + 1) _ f hch2 ?_ ?_
                  · have : pos + 1 + k = pos + (k + 1) := by omega
                    rw [this]
                    exact hq
                  · simp only [List.length_cons] at hfuel
                    omega
                · rw [interactiveLoop_invalid fetch input f items url pos tr hu hq0 ha0 he0]
                  refine ih (is :: rest) items (some url) (pos + 1) _ f
                    (Chain.cons url is next rest hu2 hf2 hch2) ?_ ?_
                  · have : pos + 1 + k = pos + (k + 1) := by omega
                    rw [this]
                    exact hq
                  · simp only [List.length_cons] at hfuel ⊢
                    omega

/-- With the one-page fetcher and an input stream that always answers the
invalid choice `"x"`, the interactive loop never exits: every fuel bound is
exhausted.  (The chain is finite, but no fetch ever happens and the cursor
never becomes absent.) -/
theorem interactiveLoop_inpX_fuelOut :
    ∀ (fuel pos : Nat) (items : List Nat) (tr : List (Event Nat)),
    interactiveLoop finiteFetcher inpX fuel items (some "p2") pos tr = .fuelOut := by
  intro fuel
  induction fuel with
  | zero => intro pos items tr; rfl
  | succ f ih =>
    intro pos items tr
    rw [interactiveLoop_invalid finiteFetcher inpX f items "p2" pos tr (by decide)
      (by show normalize "x" ≠ "q"; decide) (by show normalize "x" ≠ "a"; decide)
      (by show normalize "x" ≠ ""; decide)]
    exact ih (pos + 1) items _

/-! ### Dispatch of `handle_pagination` over its three knobs -/

/-- The propagated error of a raised run. -/
def LoopResult.errOf : LoopResult ε α → Option ε
  | .fail e _ => some e
  | _ => none

theorem handle_pagination_auto (fetch : Fetcher ε α) (input : Nat → String)
    (items : List α) (c : Option String) (i : Bool) (fuel : Nat) :
    handle_pagination fetch input items c true i fuel = fetchAllLoop fetch fuel items c [] := by
  simp [handle_pagination]

theorem handle_pagination_absent (fetch : Fetcher ε α) (input : Nat → String)
    (items : List α) (c : Option String) (i : Bool) (fuel : Nat)
    (hc : cursorPresent c = false) :
    handle_pagination fetch input items c false i fuel = .ok items c [] := by
  simp [handle_pagination, hc]

theorem handle_pagination_noninteractive (fetch : Fetcher ε α) (input : Nat → String)
    (items : List α) (c : Option String) (fuel : Nat) (hc : cursorPresent c = true) :
    handle_pagination fetch input items c false false fuel = .ok items c [] := by
  simp [handle_pagination, hc]

theorem handle_pagination_interactive (fetch : Fetcher ε α) (input : Nat → String)
    (items : List α) (c : Option String) (fuel : Nat) (hc : cursorPresent c = true) :
    handle_pagination fetch input items c false true fuel =
      interactiveLoop fetch input fuel items c 0 [Event.display items] := by
  simp [handle_pagination, hc]

/-- On any normal return of `handle_pagination`, whatever the flags, the
returned list is the caller's list followed by the fetched extension. -/
theorem handle_pagination_grows (fetch : Fetcher ε α) (input : Nat → String)
    (items : List α) (c : Option String) (a i : Bool) (fuel : Nat) (i2 : List α)
    (h : (handle_pagination fetch input items c a i fuel).itemsOf = some i2) :
    ∃ rest, i2 = items ++ rest := by
  cases a with
  | true =>
    rw [handle_pagination_auto] at h
    cases hres : fetchAllLoop fetch fuel items c [] with
    | ok ia ca ta =>
      rw [hres] at h
      simp only [LoopResult.itemsOf, Option.some.injEq] at h
      obtain ⟨rest, hr⟩ := fetchAllLoop_grows fetch fuel items c [] ia ca ta hres
      exact ⟨rest, by rw [← h, hr]⟩
    | fail e ta => rw [hres] at h; simp [LoopResult.itemsOf] at h
    | fuelOut => rw [hres] at h; simp [LoopResult.itemsOf] at h
  | false =>
    by_cases hc : cursorPresent c = false
    · rw [handle_pagination_absent fetch input items c i fuel hc] at h
      simp only [LoopResult.itemsOf, Option.some.injEq] at h
      exact ⟨[], by rw [← h]; simp⟩
    · rw [Bool.not_eq_false] at hc
      cases i with
      | false =>
        rw [handle_pagination_noninteractive fetch input items c fuel hc] at h
        simp only [LoopResult.itemsOf, Option.some.injEq] at h
        exact ⟨[], by rw [← h]; simp⟩
      | true =>
        rw [handle_pagination_interactive fetch input items c fuel hc] at h
        cases hres : interactiveLoop fetch input fuel items c 0 [Event.display items] with
        | ok ia ca ta =>
          rw [hres] at h
          simp only [LoopResult.itemsOf, Option.some.injEq] at h
          obtain ⟨rest, hr⟩ := interactiveLoop_grows fetch input fuel items c 0 _ ia ca ta hres
          exact ⟨rest, by rw [← h, hr]⟩
        | fail e ta => rw [hres] at h; simp [LoopResult.itemsOf] at h
        | fuelOut => rw [hres] at h; simp [LoopResult.itemsOf] at h

/-- The finite three-page chain of the spec scenario under `specFetcher`. -/
theorem chainSpec : Chain specFetcher (some "p2") [[2], [3]] := by
  refine Chain.cons "p2" [2] (some "p3") [[3]] (by decide) rfl ?_
  refine Chain.cons "p3" [3] none [] (by decide) rfl ?_
  exact Chain.nil none rfl

/-- The one-remaining-page chain under `finiteFetcher`. -/
theorem chainFinite : Chain finiteFetcher (some "p2") [[2]] := by
  refine Chain.cons "p2" [2] none [] (by decide) rfl ?_
  exact Chain.nil none rfl

/-! ### The claims -/

/-- C2: for every first page and every fetcher whose cursor chain ends in an
absent cursor, with `all_pages` true, `handle_pagination` returns the
concatenation, in fetch order, of the items of every page from the first up
to the one whose cursor is absent, and calls `fetch_next_page` exactly once
per remaining page. -/
theorem C2_auto_all_fetches_every_page (fetch : Fetcher ε α) (input : Nat → String)
    (items : List α) (c : Option String) (i : Bool) (fuel : Nat) (pages : List (List α))
    (hch : Chain fetch c pages) (hfuel : pages.length ≤ fuel) :
    ∃ c2 t, handle_pagination fetch input items c true i fuel =
        .ok (items ++ pages.flatten) c2 t ∧
      cursorPresent c2 = false ∧ countFetches t = pages.length := by
  obtain ⟨δ, c2, heq, hc2, hcf, _, _⟩ := fetchAllLoop_chain fetch hch fuel items [] hfuel
  refine ⟨c2, δ, ?_, hc2, hcf⟩
  rw [handle_pagination_auto]
  simpa using heq

/-- Witness for C2 at the spec's concrete scenario: first page `[1]` with
cursor `"p2"`, two remaining pages `[2]` and `[3]`, so the run returns
`[1, 2, 3]` with two fetch calls. -/
theorem C2_auto_all_fetches_every_page_witness :
    Chain specFetcher (some "p2") [[2], [3]] ∧
    ([[2], [3]] : List (List Nat)).length ≤ 5 ∧
    (handle_pagination specFetcher inpQ [1] (some "p2") true true 5).itemsOf =
      some [1, 2, 3] ∧
    (handle_pagination specFetcher inpQ [1] (some "p2") true true 5).traceOf =
      some [Event.loadingMsg 1, Event.fetchCalled "p2",
            Event.loadingMsg 2, Event.fetchCalled "p3"] := by
  refine ⟨chainSpec, by decide, ?_, by decide⟩
  obtain ⟨c2, t, heq, _, _⟩ :=
    C2_auto_all_fetches_every_page specFetcher inpQ [1] (some "p2") true 5 [[2], [3]]
      chainSpec (by decide)
  rw [heq]
  rfl

/-- C3: with a present cursor, `interactive = false` and `all_pages = false`,
`handle_pagination` returns exactly the first page's items with an empty
event trace, hence zero `fetch_next_page` calls. -/
theorem C3_noninteractive_returns_first_page (fetch : Fetcher ε α) (input : Nat → String)
    (items : List α) (c : Option String) (fuel : Nat) (hc : cursorPresent c = true) :
    handle_pagination fetch input items c false false fuel = .ok items c [] :=
  handle_pagination_noninteractive fetch input items c fuel hc

/-- Witness for C3. -/
theorem C3_noninteractive_returns_first_page_witness :
    cursorPresent (some "p2") = true ∧
    handle_pagination specFetcher inpQ [1] (some "p2") false false 5 =
      .ok [1] (some "p2") [] :=
  ⟨by decide,
   C3_noninteractive_returns_first_page specFetcher inpQ [1] (some "p2") 5 (by decide)⟩

/-- C4: when the first page's cursor is absent (`None`), `handle_pagination`
returns exactly the first page's items for all four combinations of the two
flags, with an empty event trace, hence zero `fetch_next_page` calls. -/
theorem C4_absent_cursor_returns_first_page (fetch : Fetcher ε α) (input : Nat → String)
    (items : List α) (a i : Bool) (fuel : Nat) :
    handle_pagination fetch input items none a i fuel = .ok items none [] := by
  cases a with
  | true =>
    rw [handle_pagination_auto]
    exact fetchAllLoop_none fetch fuel items []
  | false =>
    exact handle_pagination_absent fetch input items none i fuel rfl

/-- C1: in the interactive prompt loop with a present cursor, the choice is
the input line stripped and lower-cased (`normalize`), and: choice `""`
performs exactly one fetch, appends its items and displays just the newly
fetched items before looping; choice `"a"` fetches until the cursor is
absent with no intervening prompt, displays the full accumulated list once
and exits the loop; choice `"q"` exits the loop at once with no further
fetch (the step appends only the page message and the prompt event). -/
theorem C1_interactive_choice_dispatch (fetch : Fetcher ε α) (input : Nat → String)
    (f : Nat) (items : List α) (url : String) (pos : Nat) (tr : List (Event α))
    (hu : url.data.isEmpty = false) :
    (∀ ni nu, normalize (input pos) = "" → fetch url = .ok (ni, nu) →
      interactiveLoop fetch input (f + 1) items (some url) pos tr =
        interactiveLoop fetch input f (items ++ ni) nu (pos + 1)
          (tr ++ [Event.showingMsg items.length, Event.promptShown,
                  Event.fetchCalled url, Event.display ni]))
  ∧ (∀ pages, normalize (input pos) = "a" → Chain fetch (some url) pages →
      pages.length ≤ f →
      ∃ δ c2, interactiveLoop fetch input (f + 1) items (some url) pos tr =
          .ok (items ++ pages.flatten) c2
            (tr ++ [Event.showingMsg items.length, Event.promptShown] ++ δ ++
              [Event.display (items ++ pages.flatten)]) ∧
        cursorPresent c2 = false ∧ countFetches δ = pages.length ∧
        countPrompts δ = 0 ∧ countDisplays δ = 0)
  ∧ (normalize (input pos) = "q" →
      interactiveLoop fetch input (f + 1) items (some url) pos tr =
        .ok items (some url) (tr ++ [Event.showingMsg items.length, Event.promptShown])) := by
  refine ⟨?_, ?_, ?_⟩
  · intro ni nu he hf
    exact interactiveLoop_empty_ok fetch input f items ni url nu pos tr hu he hf
  · intro pages ha hch hlen
    obtain ⟨δ, c2, heq, hc2, hcf, hcp, hcd⟩ :=
      fetchAllLoop_chain fetch hch f items
        (tr ++ [Event.showingMsg items.length, Event.promptShown]) hlen
    refine ⟨δ, c2, ?_, hc2, hcf, hcp, hcd⟩
    rw [interactiveLoop_a fetch input f items url pos tr hu ha]
    simp only [heq]
  · intro hq
    exact interactiveLoop_q fetch input f items url pos tr hu hq

/-- Witness for C1: under the spec's fetcher, starting from items `[1]` and
cursor `"p2"`, input `""` performs one fetch of page two and displays `[2]`
alone, input `"a"` returns `[1, 2, 3]`, and input `"q"` returns at once. -/
theorem C1_interactive_choice_dispatch_witness :
    normalize (inpEmptyQ 0) = "" ∧ normalize (inpAQ 0) = "a" ∧ normalize (inpQ 0) = "q" ∧
    interactiveLoop specFetcher inpEmptyQ 3 [1] (some "p2") 0 [] =
      interactiveLoop specFetcher inpEmptyQ 2 [1, 2] (some "p3") 1
        [Event.showingMsg 1, Event.promptShown, Event.fetchCalled "p2", Event.display [2]] ∧
    (interactiveLoop specFetcher inpAQ 3 [1] (some "p2") 0 []).itemsOf = some [1, 2, 3] ∧
    interactiveLoop specFetcher inpQ 3 [1] (some "p2") 0 [] =
      .ok [1] (some "p2") [Event.showingMsg 1, Event.promptShown] := by
  refine ⟨by decide, by decide, by decide, ?_, ?_, ?_⟩
  · exact (C1_interactive_choice_dispatch specFetcher inpEmptyQ 2 [1] "p2" 0 []
      (by decide)).1 [2] (some "p3") (by decide) rfl
  · obtain ⟨δ, c2, heq, _, _, _, _⟩ :=
      (C1_interactive_choice_dispatch specFetcher inpAQ 2 [1] "p2" 0 []
        (by decide)).2.1 [[2], [3]] (by decide) chainSpec (by decide)
    rw [heq]
    rfl
  · exact (C1_interactive_choice_dispatch specFetcher inpQ 2 [1] "p2" 0 []
      (by decide)).2.2 (by decide)

/-- C8: an interactive input line whose stripped, lower-cased form is none of
`""`, `"a"`, `"q"` appends only the page message, the prompt and the
invalid-choice message (so no fetch call and no change to the items or the
cursor), raises nothing, and the loop then shows the prompt again. -/
theorem C8_invalid_input_reprompts (fetch : Fetcher ε α) (input : Nat → String)
    (f : Nat) (items : List α) (url : String) (pos : Nat) (tr : List (Event α))
    (hu : url.data.isEmpty = false)
    (hq : normalize (input pos) ≠ "q") (ha : normalize (input pos) ≠ "a")
    (he : normalize (input pos) ≠ "") :
    interactiveLoop fetch input (f + 1 + 1) items (some url) pos tr =
      interactiveLoop fetch input (f + 1) items (some url) (pos + 1)
        (tr ++ [Event.showingMsg items.length, Event.promptShown, Event.invalidMsg]) ∧
    (∀ t, (interactiveLoop fetch input (f + 1 + 1) items (some url) pos tr).traceOf = some t →
      ((tr ++ [Event.showingMsg items.length, Event.promptShown, Event.invalidMsg]) ++
        [Event.showingMsg items.length, Event.promptShown]) <+: t) := by
  have hstep := interactiveLoop_invalid fetch input (f + 1) items url pos tr hu hq ha he
  refine ⟨hstep, ?_⟩
  intro t h
  rw [hstep] at h
  exact interactiveLoop_prompts_first fetch input f items url (pos + 1)
    (tr ++ [Event.showingMsg items.length, Event.promptShown, Event.invalidMsg]) hu t h

/-- Witness for C8: input `"x"` then `"q"`: the invalid line adds only the
three message events and the next iteration prompts again. -/
theorem C8_invalid_input_reprompts_witness :
    normalize (inpXQ 0) ≠ "q" ∧ normalize (inpXQ 0) ≠ "a" ∧ normalize (inpXQ 0) ≠ "" ∧
    interactiveLoop finiteFetcher inpXQ 2 [1] (some "p2") 0 [] =
      interactiveLoop finiteFetcher inpXQ 1 [1] (some "p2") 1
        [Event.showingMsg 1, Event.promptShown, Event.invalidMsg] ∧
    (([] ++ [Event.showingMsg 1, Event.promptShown, Event.invalidMsg]) ++
        [Event.showingMsg 1, Event.promptShown]) <+:
      ([Event.showingMsg 1, Event.promptShown, Event.invalidMsg,
        Event.showingMsg 1, Event.promptShown] : List (Event Nat)) := by
  refine ⟨by decide, by decide, by decide, ?_, ?_⟩
  · exact (C8_invalid_input_reprompts finiteFetcher inpXQ 0 [1] "p2" 0 []
      (by decide) (by decide) (by decide) (by decide)).1
  · exact (C8_invalid_input_reprompts finiteFetcher inpXQ 0 [1] "p2" 0 []
      (by decide) (by decide) (by decide) (by decide)).2
      [Event.showingMsg 1, Event.promptShown, Event.invalidMsg,
       Event.showingMsg 1, Event.promptShown] (by decide)

/-- C5: the accumulated items only grow (the caller's items are a prefix of
any returned list, each step appending); with an absent cursor both loops
return at once, adding no event (so no fetch is attempted); and every fetch
call recorded in any run's trace is on a present (nonempty) cursor that is
the initial `next_page_url` or a cursor returned by a previous fetch — never
the already-fetched first page. -/
theorem C5_growth_and_cursor_invariants (ε α : Type) :
    (∀ (fetch : Fetcher ε α) (input : Nat → String) (items : List α) (c : Option String)
       (a i : Bool) (fuel : Nat) (i2 : List α),
      (handle_pagination fetch input items c a i fuel).itemsOf = some i2 → items <+: i2)
  ∧ (∀ (fetch : Fetcher ε α) (fuel : Nat) (items : List α) (c : Option String)
       (tr : List (Event α)), cursorPresent c = false →
      fetchAllLoop fetch fuel items c tr = .ok items c tr)
  ∧ (∀ (fetch : Fetcher ε α) (input : Nat → String) (fuel : Nat) (items : List α)
       (c : Option String) (pos : Nat) (tr : List (Event α)), cursorPresent c = false →
      interactiveLoop fetch input fuel items c pos tr = .ok items c tr)
  ∧ (∀ (fetch : Fetcher ε α) (input : Nat → String) (items : List α) (c : Option String)
       (a i : Bool) (fuel : Nat) (t : List (Event α)),
      (handle_pagination fetch input items c a i fuel).traceOf = some t →
      ∀ u, Event.fetchCalled u ∈ t →
        u.data.isEmpty = false ∧ ReachableCursor fetch c u) := by
  refine ⟨?_, ?_, ?_, ?_⟩
  · intro fetch input items c a i fuel i2 h
    obtain ⟨rest, hr⟩ := handle_pagination_grows fetch input items c a i fuel i2 h
    exact hr ▸ List.prefix_append items rest
  · intro fetch fuel items c tr hc
    exact fetchAllLoop_notPresent fetch fuel items c tr hc
  · intro fetch input fuel items c pos tr hc
    exact interactiveLoop_notPresent fetch input fuel items c pos tr hc
  · intro fetch input items c a i fuel t h
    cases a with
    | true =>
      rw [handle_pagination_auto] at h
      exact fetchAllLoop_reachable fetch c fuel items c []
        (fun u hu => ReachableCursor.init u hu) (fun u hm => absurd hm (by simp)) t h
    | false =>
      by_cases hc : cursorPresent c = false
      · rw [handle_pagination_absent fetch input items c i fuel hc] at h
        simp only [LoopResult.traceOf, Option.some.injEq] at h
        intro u hm
        rw [← h] at hm
        exact absurd hm (by simp)
      · rw [Bool.not_eq_false] at hc
        cases i with
        | false =>
          rw [handle_pagination_noninteractive fetch input items c fuel hc] at h
          simp only [LoopResult.traceOf, Option.some.injEq] at h
          intro u hm
          rw [← h] at hm
          exact absurd hm (by simp)
        | true =>
          rw [handle_pagination_interactive fetch input items c fuel hc] at h
          refine interactiveLoop_reachable fetch input c fuel items c 0 [Event.display items]
            (fun u hu => ReachableCursor.init u hu) ?_ t h
          intro u hm
          simp only [List.mem_cons, List.not_mem_nil, or_false] at hm
          exact absurd hm (by simp)

/-- Witness for C5: the growth, absent-cursor and reachability conjuncts
instantiated on the spec's concrete three-page scenario. -/
theorem C5_growth_and_cursor_invariants_witness :
    ([1] : List Nat) <+: [1, 2, 3] ∧
    fetchAllLoop specFetcher 5 [1] none [] = .ok [1] none [] ∧
    interactiveLoop specFetcher inpQ 5 [1] none 0 [] = .ok [1] none [] ∧
    (("p3").data.isEmpty = false ∧ ReachableCursor specFetcher (some "p2") "p3") := by
  obtain ⟨h1, h2, h3, h4⟩ := C5_growth_and_cursor_invariants String Nat
  refine ⟨h1 specFetcher inpQ [1] (some "p2") true true 5 [1, 2, 3] (by decide),
    h2 specFetcher 5 [1] none [] rfl,
    h3 specFetcher inpQ 5 [1] none 0 [] rfl,
    h4 specFetcher inpQ [1] (some "p2") true true 5
      [Event.loadingMsg 1, Event.fetchCalled "p2", Event.loadingMsg 2, Event.fetchCalled "p3"]
      (by decide) "p3" (by decide)⟩

/-- C6: a transport error raised by `fetch_next_page` is not caught: the run
fails with exactly that error, the items accumulated before the failure are
not returned (a `fail` result carries no items), and no retry happens (the
failing cursor is fetched exactly once, after one call per earlier page). -/
theorem C6_fetch_error_propagates (ε α : Type) :
    (∀ (fetch : Fetcher ε α) (input : Nat → String) (items : List α) (c : Option String)
       (i : Bool) (fuel : Nat) (pages : List (List α)) (u : String) (e : ε),
      ChainTo fetch c pages u → fetch u = .error e → pages.length < fuel →
      ∃ t, handle_pagination fetch input items c true i fuel = .fail e t ∧
        countFetches t = pages.length + 1)
  ∧ (∀ (fetch : Fetcher ε α) (input : Nat → String) (f : Nat) (items : List α)
       (url : String) (e : ε) (pos : Nat) (tr : List (Event α)),
      url.data.isEmpty = false → normalize (input pos) = "" → fetch url = .error e →
      interactiveLoop fetch input (f + 1) items (some url) pos tr =
        .fail e (tr ++ [Event.showingMsg items.length, Event.promptShown,
                        Event.fetchCalled url])) := by
  constructor
  · intro fetch input items c i fuel pages u e hch herr hlen
    obtain ⟨δ, heq, hcf, _, _⟩ := fetchAllLoop_chainTo_fail fetch hch fuel items [] e herr hlen
    refine ⟨δ, ?_, hcf⟩
    rw [handle_pagination_auto]
    simpa using heq
  · intro fetch input f items url e pos tr hu he hf
    exact interactiveLoop_empty_err fetch input f items url e pos tr hu he hf

/-- Witness for C6: under the always-failing fetcher, the auto-all run fails
with the fetcher's error, and an interactive `""` choice fails likewise. -/
theorem C6_fetch_error_propagates_witness :
    (handle_pagination failFetcher inpQ [1] (some "p2") true true 1).errOf =
      some "fetch failed" ∧
    interactiveLoop failFetcher inpEmptyQ 1 [1] (some "p2") 0 [] =
      .fail "fetch failed" [Event.showingMsg 1, Event.promptShown, Event.fetchCalled "p2"] := by
  obtain ⟨h1, h2⟩ := C6_fetch_error_propagates String Nat
  constructor
  · obtain ⟨t, heq, _⟩ := h1 failFetcher inpQ [1] (some "p2") true 1 [] "p2" "fetch failed"
      (ChainTo.here "p2" (by decide)) rfl (by decide)
    rw [heq]
    rfl
  · exact h2 failFetcher inpEmptyQ 0 [1] "p2" "fetch failed" 0 [] (by decide) (by decide) rfl

/-- Counterexample to C7 as stated: in auto-all mode the engine does emit
output of its own — one "Loading more items..." stderr line per fetched page.
At the spec's concrete scenario the trace holds two such output events. -/
theorem C7_counterexample_auto_mode_emits_output :
    (handle_pagination specFetcher inpQ [1] (some "p2") true true 5).traceOf =
      some [Event.loadingMsg 1, Event.fetchCalled "p2",
            Event.loadingMsg 2, Event.fetchCalled "p3"] ∧
    countOutputs ([Event.loadingMsg 1, Event.fetchCalled "p2",
                   Event.loadingMsg 2, Event.fetchCalled "p3"] : List (Event Nat)) = 2 :=
  ⟨by decide, by decide⟩

/-- C7 as amended: in auto-all mode the engine performs no display (no
`format_func` call, no stdout output) during its fetch loop: the trace of
any completed run contains zero display events.  (It does write one progress
message per fetch to stderr.) -/
theorem C7_amended_auto_mode_never_displays (fetch : Fetcher ε α) (input : Nat → String)
    (items : List α) (c : Option String) (i : Bool) (fuel : Nat) (t : List (Event α))
    (h : (handle_pagination fetch input items c true i fuel).traceOf = some t) :
    countDisplays t = 0 := by
  rw [handle_pagination_auto] at h
  have h2 := fetchAllLoop_no_display fetch fuel items c [] t h
  simpa [countDisplays] using h2

/-- Witness for the amended C7. -/
theorem C7_amended_auto_mode_never_displays_witness :
    (handle_pagination specFetcher inpQ [1] (some "p2") true true 5).traceOf =
      some [Event.loadingMsg 1, Event.fetchCalled "p2",
            Event.loadingMsg 2, Event.fetchCalled "p3"] ∧
    countDisplays ([Event.loadingMsg 1, Event.fetchCalled "p2",
                    Event.loadingMsg 2, Event.fetchCalled "p3"] : List (Event Nat)) = 0 :=
  ⟨by decide,
   C7_amended_auto_mode_never_displays specFetcher inpQ [1] (some "p2") true 5
     [Event.loadingMsg 1, Event.fetchCalled "p2",
      Event.loadingMsg 2, Event.fetchCalled "p3"] (by decide)⟩

/-- Counterexample to C9 as stated: a finite cursor chain alone does not make
the interactive loop terminate.  With one remaining page but an input stream
that answers the invalid `"x"` forever, no fetch ever happens, the cursor
never becomes absent, and every fuel bound runs out. -/
theorem C9_counterexample_finite_chain_no_quit :
    Chain finiteFetcher (some "p2") [[2]] ∧
    ¬ Terminates finiteFetcher inpX [1] (some "p2") false true := by
  refine ⟨chainFinite, ?_⟩
  rintro ⟨fuel, hne⟩
  apply hne
  rw [handle_pagination_interactive finiteFetcher inpX [1] (some "p2") fuel (by decide)]
  exact interactiveLoop_inpX_fuelOut fuel 0 [1] [Event.display [1]]

/-- C9 as amended: the interactive loop terminates for every execution in
which the cursor chain is finite and the input stream eventually contains a
line whose stripped, lower-cased form is `"q"`. -/
theorem C9_amended_terminates_finite_chain_and_q (fetch : Fetcher ε α)
    (input : Nat → String) (items : List α) (c : Option String)
    (pages : List (List α)) (k : Nat)
    (hch : Chain fetch c pages) (hq : normalize (input k) = "q") :
    Terminates fetch input items c false true := by
  by_cases hc : cursorPresent c = false
  · refine ⟨0, ?_⟩
    rw [handle_pagination_absent fetch input items c true 0 hc]
    exact LoopResult.noConfusion
  · rw [Bool.not_eq_false] at hc
    refine ⟨k + pages.length + 1, ?_⟩
    rw [handle_pagination_interactive fetch input items c (k + pages.length + 1) hc]
    exact interactiveLoop_terminates_q fetch input k pages items c 0 [Event.display items]
      (k + pages.length + 1) hch (by simpa using hq) (Nat.le_refl _)

/-- Witness for the amended C9. -/
theorem C9_amended_terminates_finite_chain_and_q_witness :
    Chain finiteFetcher (some "p2") [[2]] ∧ normalize (inpQ 0) = "q" ∧
    Terminates finiteFetcher inpQ [1] (some "p2") false true :=
  ⟨chainFinite, by decide,
   C9_amended_terminates_finite_chain_and_q finiteFetcher inpQ [1] (some "p2") [[2]] 0
     chainFinite (by decide)⟩

/-- C10: `handle_pagination` copies the caller's list (`items.copy()` on
line 29) and only ever appends to the copy: any returned list is exactly the
caller's items, in order, followed by the fetched extension, and the caller's
own list is left untouched. -/
theorem C10_returned_list_extends_callers (fetch : Fetcher ε α) (input : Nat → String)
    (items : List α) (c : Option String) (a i : Bool) (fuel : Nat) (i2 : List α)
    (h : (handle_pagination fetch input items c a i fuel).itemsOf = some i2) :
    ∃ rest, i2 = items ++ rest :=
  handle_pagination_grows fetch input items c a i fuel i2 h

/-- Witness for C10. -/
theorem C10_returned_list_extends_callers_witness :
    (handle_pagination specFetcher inpQ [1] (some "p2") true true 5).itemsOf =
      some [1, 2, 3] ∧
    ∃ rest, ([1, 2, 3] : List Nat) = [1] ++ rest :=
  ⟨by decide,
   C10_returned_list_extends_callers specFetcher inpQ [1] (some "p2") true true 5
     [1, 2, 3] (by decide)⟩

end Basecamp
